import Mathlib

/-!
# Verification of the letterknife pattern engine, part-tree builder and selector

This development shallowly embeds the core of `letterknife` (motemen/letterknife,
`main.go`, final snapshot) in Lean 4 and proves/refutes the specification's
claims about it.

Conventions of the embedding:

* Go strings are modelled as `List Char` (sequences of runes; all values the
  claims exercise are valid UTF-8, where Go's byte equality coincides with
  rune-sequence equality).
* External collaborators from the Go standard library that the repository only
  *invokes* (the verbatim-regexp compiler used for `/…/` patterns, the
  `mime/quotedprintable` reader, the `encoding/base64` decoder, the
  `ianaindex`-based charset resolution, `mime.WordDecoder.DecodeHeader` and
  `mail.AddressParser.ParseList`) are modelled as explicit function parameters
  ("oracles"); theorems quantify over them, so they hold for the actual
  standard-library implementations in particular.
* Go runtime panics (out-of-range indexing/slicing) are modelled as an explicit
  `panicked` result constructor, distinct from returned `error` values.
-/

/-- Go string, modelled as a list of runes. -/
abbrev Str := List Char

/- ## Pattern engine (`regexpFromPattern`, `testPattern` in main.go)

```go
var rxPattern = regexp.MustCompile(`(\*|.+?)`)

func regexpFromPattern(pattern string) (*regexp.Regexp, error) {
    if pattern[0] == '/' && pattern[len(pattern)-1] == '/' {
        return regexp.Compile(pattern[1 : len(pattern)-1])
    }
    p := rxPattern.ReplaceAllStringFunc(pattern, func(s string) string {
        if s == "*" {
            return ".+?"
        } else {
            return regexp.QuoteMeta(s)
        }
    })
    return regexp.Compile("^" + p + "$")
}

func testPattern(value, pattern string) (bool, error) {
    if strings.IndexByte(pattern, '*') == -1 && (pattern[0] != '/' && pattern[len(pattern)-1] != '/') {
        return value == pattern, nil
    }
    rx, err := regexpFromPattern(pattern)
    if err != nil {
        return false, err
    }
    return rx.MatchString(value), nil
}
```

`rxPattern` matches either a literal `*` or (non-greedily) a single
non-newline character, so `ReplaceAllStringFunc` maps each `*` of the pattern
to `.+?` and every other character to its `regexp.QuoteMeta` escape (a newline
character is not matched by `rxPattern` and is left as-is, which in a regular
expression is likewise a literal atom matching exactly itself).  The result is
compiled anchored as `^…$`.  Since every produced atom is either `.+?` or a
literal, the compiled glob regex matches a string iff the string decomposes
into, per atom, exactly that literal character, resp. a non-empty run of
non-newline characters (Go's `.` does not match `\n`; `^`/`$` anchor at text
boundaries since `(?m)` is not set).  We model the glob form by the token list
`globToks` with matching semantics `tokMatch`/`GMatches` below.
-/

/-- One atom of the compiled glob regular expression: a self-matching literal
character, or the `.+?` wildcard produced from `*`. -/
inductive Tok where
  | lit (c : Char)
  | star
deriving DecidableEq, Repr

/-- The atom sequence `regexpFromPattern` produces for a non-`/…/` pattern:
each `*` becomes the wildcard, every other character a literal. -/
def globToks (p : Str) : List Tok :=
  p.map fun c => if c = '*' then Tok.star else Tok.lit c

/-- Executable anchored matcher for a glob atom sequence.  `.+?` (star) must
consume one or more characters, none of which may be a newline (Go `.`). -/
def tokMatch : List Tok → Str → Bool
  | [], [] => true
  | [], _ :: _ => false
  | Tok.lit _ :: _, [] => false
  | Tok.lit c :: ts, d :: v => c == d && tokMatch ts v
  | Tok.star :: _, [] => false
  | Tok.star :: ts, c :: v =>
      !(c == '\n') && (tokMatch ts v || tokMatch (Tok.star :: ts) v)
termination_by structural _ v => v

/-- Declarative anchored matching semantics for a glob atom sequence. -/
inductive GMatches : List Tok → Str → Prop where
  | nil : GMatches [] []
  | lit {c : Char} {ts : List Tok} {v : Str} :
      GMatches ts v → GMatches (Tok.lit c :: ts) (c :: v)
  | star {ts : List Tok} {v : Str} (s : Str) :
      s ≠ [] → (∀ c ∈ s, c ≠ '\n') → GMatches ts v →
      GMatches (Tok.star :: ts) (s ++ v)

/-- Result of Go's `regexp.Compile` as invoked by `regexpFromPattern`:
a runtime panic, a compile error, or a compiled matcher (its `MatchString`). -/
inductive RxRes where
  | panicked
  | compileErr
  | compiled (matchString : Str → Bool)

/-- Model of `regexpFromPattern`.  `verb` is the external `regexp.Compile`
collaborator used for the verbatim interior of a `/…/` pattern (`none` =
compile error, `some f` = compiled, with `f` its `MatchString`).  The glob
branch always compiles (every atom it emits is a valid regex fragment), with
the `tokMatch` semantics derived above. -/
def regexpFromPattern (verb : Str → Option (Str → Bool)) (pattern : Str) : RxRes :=
  if pattern.isEmpty then
    RxRes.panicked            -- Go: pattern[0], index out of range
  else if pattern.head? = some '/' ∧ pattern.getLast? = some '/' then
    if pattern.length = 1 then
      RxRes.panicked          -- Go: pattern[1:0], slice bounds out of range
    else
      match verb ((pattern.drop 1).dropLast) with
      | some f => RxRes.compiled f
      | none => RxRes.compileErr
  else
    RxRes.compiled (fun v => tokMatch (globToks pattern) v)

/-- Result of `testPattern`: a returned boolean, a returned error, or a panic. -/
inductive PatRes where
  | ok (b : Bool)
  | err
  | panicked
deriving DecidableEq, Repr

/-- Model of `testPattern`.  The fast path returns plain string equality; an
empty pattern panics (`strings.IndexByte` finds no `*`, then `pattern[0]` is
out of range). -/
def testPattern (verb : Str → Option (Str → Bool)) (value pattern : Str) : PatRes :=
  if pattern.isEmpty then
    PatRes.panicked
  else if ¬ pattern.contains '*' ∧ pattern.head? ≠ some '/' ∧ pattern.getLast? ≠ some '/' then
    PatRes.ok (value = pattern)
  else
    match regexpFromPattern verb pattern with
    | RxRes.panicked => PatRes.panicked
    | RxRes.compileErr => PatRes.err
    | RxRes.compiled f => PatRes.ok (f value)

/-- The boolean `testPattern` returns when it returns one (`false` otherwise). -/
def testB (verb : Str → Option (Str → Bool)) (value pattern : Str) : Bool :=
  match testPattern verb value pattern with
  | PatRes.ok b => b
  | _ => false

/-- The pattern compiles: `testPattern` returns a boolean (no error, no panic)
on every value.  Mirrors the success condition of `regexpFromPattern`. -/
def compilesB (verb : Str → Option (Str → Bool)) (pattern : Str) : Bool :=
  match regexpFromPattern verb pattern with
  | RxRes.compiled _ => true
  | _ => false

/-- Go's `regexp.QuoteMeta`, per character: regex metacharacters are escaped
with a backslash, all other characters pass through. -/
def quoteMetaChar (c : Char) : Str :=
  if c ∈ ("\\.+*?()|[]{}^$".toList) then ['\\', c] else [c]

/-- The regex source string `regexpFromPattern` builds for a non-`/…/`
pattern: `^` + (per character: `.+?` for `*`, `QuoteMeta` otherwise) + `$`. -/
def globRegexStr (p : Str) : Str :=
  '^' :: (p.flatMap fun c => if c = '*' then ".+?".toList else quoteMetaChar c) ++ ['$']

/- ## Media-type parsing (`mime.ParseMediaType`), the external collaborator
used by `newMessagePartFromHeader` / `buildPartTree`.

Modelled faithfully for the fragment the tool exercises: the media-type
syntax check (`checkMediaTypeDisposition`) and plain `; key=value` parameters
with token or quoted-string values.  RFC 2231 extended/continued parameters
(keys containing `*`) are outside the fragment any of the claims touch and are
treated as ordinary keys here. -/

/-- ASCII whitespace as recognised by `unicode.IsSpace` (the header values in
scope are ASCII-structured). -/
def goIsSpace (c : Char) : Bool :=
  c = ' ' ∨ c = '\t' ∨ c = '\n' ∨ c = '\r' ∨ c = '\x0b' ∨ c = '\x0c'

def trimLeftSpace (s : Str) : Str := s.dropWhile goIsSpace

def trimSpace (s : Str) : Str :=
  ((s.dropWhile goIsSpace).reverse.dropWhile goIsSpace).reverse

/-- `isTSpecial` from `mime/mediatype.go`. -/
def isTSpecialChar (c : Char) : Bool := c ∈ "()<>@,;:\\\"/[]?=".toList

/-- `isTokenChar` from `mime/mediatype.go`. -/
def isTokenChar (c : Char) : Bool :=
  0x20 < c.val ∧ c.val < 0x7f ∧ ¬ isTSpecialChar c

/-- `consumeToken`: the longest token-char run and the remainder. -/
def consumeToken (s : Str) : Str × Str :=
  (s.takeWhile isTokenChar, s.dropWhile isTokenChar)

/-- `checkMediaTypeDisposition` collapsed to a boolean (`true` = no error):
a token, optionally `/` and a subtype token, and nothing else.  In particular
the empty string has no media type and is rejected. -/
def checkMediaTypeOk (s : Str) : Bool :=
  let t := consumeToken s
  if t.1 = [] then false
  else
    match t.2 with
    | [] => true
    | '/' :: r2 =>
        let t2 := consumeToken r2
        t2.1 ≠ [] ∧ t2.2 = []
    | _ => false

/-- Quoted-string scan of `consumeValue`: `orig` is returned with an empty
value on CR/LF or a missing end quote; `\` escapes a following tspecial. -/
def consumeQuoted (orig : Str) : Str → Str → Str × Str
  | _, [] => ([], orig)
  | acc, '"' :: rest => (acc.reverse, rest)
  | acc, '\\' :: d :: rest =>
      if isTSpecialChar d then consumeQuoted orig (d :: acc) rest
      else consumeQuoted orig ('\\' :: acc) (d :: rest)
  | acc, c :: rest =>
      if c = '\r' ∨ c = '\n' then ([], orig)
      else consumeQuoted orig (c :: acc) rest
termination_by _ v => v.length

/-- `consumeValue`: a bare token, or a `"`-delimited quoted string. -/
def consumeValue : Str → Str × Str
  | [] => ([], [])
  | '"' :: rest => consumeQuoted ('"' :: rest) [] rest
  | v => consumeToken v

/-- `consumeMediaParam`: `; key = value`, returning `([], [], v)` on failure. -/
def consumeMediaParam (v : Str) : Str × Str × Str :=
  let rest := trimLeftSpace v
  if rest.head? ≠ some ';' then ([], [], v)
  else
    let rest := trimLeftSpace (rest.drop 1)
    let tk := consumeToken rest
    let param := tk.1.map Char.toLower
    let rest := tk.2
    if param = [] then ([], [], v)
    else
      let rest := trimLeftSpace rest
      if rest.head? ≠ some '=' then ([], [], v)
      else
        let rest2 := trimLeftSpace (rest.drop 1)
        let cv := consumeValue rest2
        if cv.1 = [] ∧ cv.2 = rest2 then ([], [], v)
        else (param, cv.1, cv.2)

/-- Parameter list (Go uses a map; the tool only reads first-writer keys and
duplicate keys with differing values are a parse error, so an association
list ordered by first occurrence is an exact model). -/
abbrev Params := List (Str × Str)

def Params.get (ps : Params) (k : Str) : Str :=
  ((ps.find? (fun kv => kv.1 == k)).map Prod.snd).getD []

/-- The `ParseMediaType` parameter loop.  Each successful `consumeMediaParam`
consumes at least the leading `;`, so the remainder shrinks every iteration
and a fuel of `|v| + 1` can never run out; the `none` on fuel exhaustion is
unreachable.  A failed parameter is `ErrInvalidMediaParameter` unless only a
trailing `;` remains; a duplicate key with a different value is an error. -/
def parseParamsLoop : Nat → Str → Params → Option Params
  | 0, _, _ => none
  | _ + 1, [], acc => some acc
  | fuel + 1, v, acc =>
      let v' := trimLeftSpace v
      if v' = [] then some acc
      else
        let kvr := consumeMediaParam v'
        if kvr.1 = [] then
          if trimSpace v' = [';'] then some acc else none
        else
          match acc.find? (fun kv => kv.1 == kvr.1) with
          | some kv => if kv.2 == kvr.2.1 then parseParamsLoop fuel kvr.2.2 acc else none
          | none => parseParamsLoop fuel kvr.2.2 (acc ++ [(kvr.1, kvr.2.1)])

structure MediaTypeR where
  mediatype : Str
  params : Params
deriving DecidableEq, Repr

/-- `mime.ParseMediaType`: `none` models a non-nil error (the tool never
looks at partial results returned alongside an error). -/
def parseMediaType (v : Str) : Option MediaTypeR :=
  let base := v.takeWhile (· ≠ ';')
  let mediatype := trimSpace (base.map Char.toLower)
  if ¬ checkMediaTypeOk mediatype then none
  else
    match parseParamsLoop (v.length + 1) (v.drop base.length) [] with
    | some ps => some ⟨mediatype, ps⟩
    | none => none

/- ## Headers (`net/mail.Header` / `net/textproto.MIMEHeader`) -/

/-- `textproto.CanonicalMIMEHeaderKey` restricted to token keys (a key with
an invalid byte is returned unchanged, as in Go): the first letter and every
letter following a `-` are upper-cased, the rest lower-cased. -/
def canonicalKey (s : Str) : Str :=
  if s.all isTokenChar then
    (s.foldl (fun (st : Bool × Str) c =>
      ((c = '-'), st.2 ++ [if st.1 then c.toUpper else c.toLower])) (true, ([] : Str))).2
  else s

/-- A parsed header block: association list from canonical key to raw value,
in order of appearance.  `net/mail` canonicalises keys while parsing; `Get`
canonicalises its argument and returns the first value, or `""`. -/
abbrev Header := List (Str × Str)

def Header.get (h : Header) (k : Str) : Str :=
  (((h.find? (fun kv => kv.1 == canonicalKey k)).map Prod.snd).getD [])

/-- `strings.EqualFold` for the ASCII header values compared here. -/
def eqFold (a b : Str) : Bool := a.map Char.toLower == b.map Char.toLower

def ctKey : Str := "Content-Type".toList
def cdKey : Str := "Content-Disposition".toList
def cteKey : Str := "Content-Transfer-Encoding".toList
def boundaryKey : Str := "boundary".toList
def charsetKey : Str := "charset".toList

/- ## The Part tree (`messagePart`, `newMessagePartFromHeader`,
`buildPartTree`, `visitParts`, `selectParts`, `messagePart.Read` and the
selection/output phase of `LetterKnife.Run`, final snapshot of main.go).

The transport handed to `buildPartTree` is a byte stream.  The code reads it
in exactly two ways: by copying it verbatim (leaf branch) or by handing it to
the external `mime/multipart` reader, which yields a sequence of sub-entities
(own header block + body stream) or a read error.  `BodyT` records both
observations: `raw` is what a verbatim copy yields, `splitErr`/`subs` is what
the multipart reader would yield.  Quantifying over all `BodyT` values covers
every behaviour of the actual collaborator. -/

/-- What the tool can observe of one entity's body stream. -/
inductive BodyT where
  | mk (raw : Str) (splitErr : Bool) (subs : List (Header × BodyT))

/-- The non-recursive fields of a `messagePart`. -/
structure PInfo where
  header : Header
  mediaType : Str
  mediaTypeParams : Params
  /-- models the `r io.Reader` field being pre-assigned before the first
  `Read` (done only for the synthetic whole-message part in `Run`). -/
  rPreset : Option Str
  body : Option Str
  disposition : Str
  dispositionParams : Params
deriving DecidableEq, Repr

/-- `messagePart`: fields plus the recursive `subparts`. -/
inductive MPart where
  | mk (info : PInfo) (subparts : List MPart)

def MPart.info : MPart → PInfo
  | .mk i _ => i

def MPart.subparts : MPart → List MPart
  | .mk _ s => s

def MPart.body (m : MPart) : Option Str := m.info.body

def MPart.mediaType (m : MPart) : Str := m.info.mediaType

/-- `isMultipart`: `m.body == nil`. -/
def MPart.isMultipart (m : MPart) : Bool := m.info.body.isNone

/-- `attachmentFilename`: `("", false)` unless the disposition is
`attachment`, then the `filename` disposition parameter and `true`. -/
def MPart.attachmentFilename (m : MPart) : Str × Bool :=
  if m.info.disposition ≠ "attachment".toList then ([], false)
  else (Params.get m.info.dispositionParams "filename".toList, true)

/-- The boolean component of `attachmentFilename` as used by `selectParts`. -/
def MPart.isAttachment (m : MPart) : Bool := (m.attachmentFilename).2

/-- Errors of `newMessagePartFromHeader` / `buildPartTree`. -/
inductive BErr where
  | contentType (ct : Str)   -- "parsing content-type %q: ..."
  | multipartRead            -- "reading multipart: ..."
  | bodyRead                 -- io.Copy (quoted-printable read) failure
deriving DecidableEq, Repr

/-- `newMessagePartFromHeader`: parse `Content-Type` (hard error) and
`Content-Disposition` (failure tolerated, zero values). -/
def newMessagePartFromHeader (h : Header) : Except BErr PInfo :=
  let ct := Header.get h ctKey
  match parseMediaType ct with
  | none => .error (BErr.contentType ct)
  | some mt =>
      let dd := match parseMediaType (Header.get h cdKey) with
        | some d => (d.mediatype, d.params)
        | none => ([], [])
      .ok { header := h, mediaType := mt.mediatype, mediaTypeParams := mt.params,
            rPreset := none, body := none, disposition := dd.1,
            dispositionParams := dd.2 }

/-- `strings.HasPrefix(mt, "multipart/")`. -/
def hasMultipartMedia (mt : Str) : Bool := mt.take 10 == "multipart/".toList

/- `buildPartTree` (final snapshot): multipart media type with a non-empty
`boundary` parameter recurses over the sub-entities the multipart reader
yields; otherwise the entity is a leaf whose body is copied verbatim —
through the external quoted-printable decoder `qp` when
`Content-Transfer-Encoding` equals (case-insensitively) `quoted-printable`. -/
mutual

def buildPartTree (qp : Str → Except Unit Str) (h : Header) : BodyT → Except BErr MPart
  | BodyT.mk raw se subs =>
    match newMessagePartFromHeader h with
    | .error e => .error e
    | .ok info =>
      if hasMultipartMedia info.mediaType ∧ Params.get info.mediaTypeParams boundaryKey ≠ [] then
        if se then .error BErr.multipartRead
        else
          match buildSubs qp subs with
          | .error e => .error e
          | .ok kids => .ok (MPart.mk info kids)
      else
        if eqFold (Header.get h cteKey) "quoted-printable".toList then
          match qp raw with
          | .ok dec => .ok (MPart.mk { info with body := some dec } [])
          | .error _ => .error BErr.bodyRead
        else .ok (MPart.mk { info with body := some raw } [])

def buildSubs (qp : Str → Except Unit Str) : List (Header × BodyT) → Except BErr (List MPart)
  | [] => .ok []
  | (h, t) :: rest =>
    match buildPartTree qp h t with
    | .error e => .error e
    | .ok p =>
      match buildSubs qp rest with
      | .error e => .error e
      | .ok ps => .ok (p :: ps)

end

/-- Errors `selectParts` propagates out of `testPattern` (plus the modelled
panic, which in Go would abort the process rather than return). -/
inductive SErr where
  | patternErr
  | patternPanic
deriving DecidableEq, Repr

/- `visitParts` + the appending visitor closure of `selectParts`, fused:
`visitParts` recurses into subparts of multipart (body-less) nodes and visits
only non-multipart nodes; the visitor skips parts whose attachment flag
differs from the requested one, then appends the part iff `testPattern`
accepts its media type, aborting on a `testPattern` error. -/
mutual

def selectParts (verb : Str → Option (Str → Bool)) (spec : Str) (watt : Bool) :
    MPart → Except SErr (List MPart)
  | MPart.mk info subs =>
    if info.body.isNone then selectList verb spec watt subs
    else
      if (MPart.mk info subs).isAttachment ≠ watt then .ok []
      else
        match testPattern verb info.mediaType spec with
        | PatRes.ok true => .ok [MPart.mk info subs]
        | PatRes.ok false => .ok []
        | PatRes.err => .error SErr.patternErr
        | PatRes.panicked => .error SErr.patternPanic

def selectList (verb : Str → Option (Str → Bool)) (spec : Str) (watt : Bool) :
    List MPart → Except SErr (List MPart)
  | [] => .ok []
  | p :: rest =>
    match selectParts verb spec watt p with
    | .error e => .error e
    | .ok l1 =>
      match selectList verb spec watt rest with
      | .error e => .error e
      | .ok l2 => .ok (l1 ++ l2)

end

/- The leaves of a part tree in pre-order document order: the nodes
`visitParts` visits (non-multipart nodes, i.e. nodes with a body). -/
mutual

def leavesM : MPart → List MPart
  | MPart.mk info subs =>
    if info.body.isNone then leavesL subs else [MPart.mk info subs]

def leavesL : List MPart → List MPart
  | [] => []
  | p :: rest => leavesM p ++ leavesL rest

end

/- Structural invariant of §3 of the spec: no node has both a present body
and a non-empty subpart list, recursively. -/
mutual

def invM : MPart → Bool
  | MPart.mk info subs =>
    (!(info.body.isSome && !subs.isEmpty)) && invL subs

def invL : List MPart → Bool
  | [] => true
  | p :: rest => invM p && invL rest

end

/-- Errors surfaced by reading a part's decoded stream. -/
inductive RdErr where
  | nilBody       -- m.body is nil and r was not preset: nil reader
  | charsetBuild  -- "failed to build charset %q decoder"
  | readFail      -- base64/charset decode failure while reading
deriving DecidableEq, Repr

/-- `messagePart.Read`, drained to the end.  If `r` was preset (the synthetic
whole-message part), the stream is that reader and no pipeline is built.
Otherwise the pipeline is composed lazily on first read over `body`:
the external base64 decoder `b64` if `Content-Transfer-Encoding` equals
(case-insensitively) `base64`, then the charset decoder resolved by the
external `cs` for a non-empty `charset` media-type parameter (`none` =
unknown charset, an error when building the pipeline). -/
def readAll (b64 : Str → Except Unit Str) (cs : Str → Option (Str → Except Unit Str))
    (m : MPart) : Except RdErr Str :=
  match m.info.rPreset with
  | some s => .ok s
  | none =>
    match m.info.body with
    | none => .error RdErr.nilBody
    | some b =>
      let step1 : Except RdErr Str :=
        if eqFold (Header.get m.info.header cteKey) "base64".toList then
          match b64 b with
          | .ok d => .ok d
          | .error _ => .error RdErr.readFail
        else .ok b
      match step1 with
      | .error e => .error e
      | .ok d1 =>
        let charset := Params.get m.info.mediaTypeParams charsetKey
        if charset ≠ [] then
          match cs charset with
          | none => .error RdErr.charsetBuild
          | some dec =>
            match dec d1 with
            | .ok d2 => .ok d2
            | .error _ => .error RdErr.readFail
        else .ok d1

/- ## Envelope matching (`checkMatch`) -/

/-- One parsed mailbox as returned by `mail.AddressParser.ParseList`:
a display name and the bare `local-part@domain` address. -/
structure GoAddress where
  name : Str
  address : Str
deriving DecidableEq, Repr

inductive CMErr where
  | malformedSpec  -- no ':' in the header:pattern spec
  | addrParse      -- "parsing header %s: as addresses"
  | decodeErr      -- mimeDecoder.DecodeHeader failure
  | patternErr     -- testPattern returned an error
  | patternPanic   -- testPattern panicked
deriving DecidableEq, Repr

/-- `strings.IndexByte(in, ':')` split into `in[0:p]` and `in[p+1:]`. -/
def splitHeaderPattern (s : Str) : Option (Str × Str) :=
  match s.findIdx? (· = ':') with
  | none => none
  | some i => some (s.take i, s.drop (i + 1))

/-- The value loop of `checkMatch`: decode each value, test it against the
pattern, return `true` at the first match, errors aborting. -/
def checkValues (verb : Str → Option (Str → Bool)) (dh : Str → Except Unit Str)
    (pat : Str) : List Str → Except CMErr Bool
  | [] => .ok false
  | v :: rest =>
    match dh v with
    | .error _ => .error CMErr.decodeErr
    | .ok dv =>
      match testPattern verb dv pat with
      | PatRes.ok true => .ok true
      | PatRes.ok false => checkValues verb dh pat rest
      | PatRes.err => .error CMErr.patternErr
      | PatRes.panicked => .error CMErr.patternPanic

/-- `checkMatch`: split the spec at the first `:`; in address mode, parse the
header value into addresses with the external `pl` (`mail.AddressParser`,
word-decoding display names internally) and compare each bare `.Address`;
otherwise compare the single raw header value.  Each candidate value is
passed through the external header decoder `dh` before `testPattern`. -/
def checkMatch (verb : Str → Option (Str → Bool)) (dh : Str → Except Unit Str)
    (pl : Str → Except Unit (List GoAddress))
    (h : Header) (inS : Str) (isAddr : Bool) : Except CMErr Bool :=
  match splitHeaderPattern inS with
  | none => .error CMErr.malformedSpec
  | some (hdr, pat) =>
    let values : Except CMErr (List Str) :=
      if isAddr then
        match pl (Header.get h hdr) with
        | .error _ => .error CMErr.addrParse
        | .ok addrs => .ok (addrs.map GoAddress.address)
      else .ok [Header.get h hdr]
    match values with
    | .error e => .error e
    | .ok vs => checkValues verb dh pat vs

/- ## Selection and output phase of `LetterKnife.Run` (final snapshot,
lines after the envelope checks).  `--save-file` performs filesystem I/O and
is out of scope (spec §1), so the modelled flag set corresponds to runs with
`SaveFile == false`; with that, `PrintContent` is forced on when neither
`--print-header` nor `--print-raw` is requested, converted to `PrintRaw`
when nothing was selected, and the whole-message part (whose `r` is preset
to the captured input buffer) is the fallback selection. -/

structure Flags where
  selectPart : Str
  selectAttachment : Str
  printContent : Bool
  printHeader : Str
  printRaw : Bool
deriving DecidableEq, Repr

inductive RunErr where
  | build (e : BErr)       -- "failed to create part" / "while building tree"
  | select (e : SErr)      -- "while selecting parts/attachments"
  | selectFailed           -- ErrSelectFailed
  | headerDecode           -- "decoding header %q failed"
  | read (e : RdErr)       -- io.Copy from a part failed
deriving DecidableEq, Repr

/-- `delmiter = "\n"`. -/
def delim : Str := ['\n']

/-- The `--print-content` loop: each selected part's decoded stream followed
by the delimiter. -/
def printAllParts (b64 : Str → Except Unit Str) (cs : Str → Option (Str → Except Unit Str)) :
    List MPart → Except RunErr Str
  | [] => .ok []
  | m :: rest =>
    match readAll b64 cs m with
    | .error e => .error (RunErr.read e)
    | .ok s =>
      match printAllParts b64 cs rest with
      | .error e => .error e
      | .ok s2 => .ok (s ++ delim ++ s2)

/-- The selection/output phase of `Run`: build the synthetic whole-message
part (header parse is a hard error) with `r` preset to the captured input,
build the body tree, run the requested selections, fail if a selection was
requested and empty, apply the print-mode defaulting, and emit, in order:
`--print-header` output, `--print-content` output, `--print-raw` output. -/
def runOutput (verb : Str → Option (Str → Bool)) (qp b64 : Str → Except Unit Str)
    (cs : Str → Option (Str → Except Unit Str)) (dh : Str → Except Unit Str)
    (fl : Flags) (h : Header) (input : Str) (t : BodyT) : Except RunErr Str :=
  match newMessagePartFromHeader h with
  | .error e => .error (RunErr.build e)
  | .ok wpInfo =>
    let wp := MPart.mk { wpInfo with rPreset := some input } []
    match buildPartTree qp h t with
    | .error e => .error (RunErr.build e)
    | .ok root =>
      let sel1 : Except SErr (List MPart) :=
        if fl.selectPart ≠ [] then selectParts verb fl.selectPart false root else .ok []
      match sel1 with
      | .error e => .error (RunErr.select e)
      | .ok l1 =>
        let sel2 : Except SErr (List MPart) :=
          if fl.selectAttachment ≠ [] then selectParts verb fl.selectAttachment true root
          else .ok []
        match sel2 with
        | .error e => .error (RunErr.select e)
        | .ok l2 =>
          let selected := l1 ++ l2
          if (fl.selectPart ≠ [] ∨ fl.selectAttachment ≠ []) ∧ selected.isEmpty then
            .error RunErr.selectFailed
          else
            let pc0 := if fl.printHeader = [] ∧ fl.printRaw = false then true
                       else fl.printContent
            let pc := if selected.isEmpty ∧ pc0 = true then false else pc0
            let pr := if selected.isEmpty ∧ pc0 = true then true else fl.printRaw
            let selected := if selected.isEmpty then [wp] else selected
            let out1 : Except RunErr Str :=
              if fl.printHeader ≠ [] then
                match dh (Header.get wpInfo.header fl.printHeader) with
                | .error _ => .error RunErr.headerDecode
                | .ok s => .ok (s ++ delim)
              else .ok []
            match out1 with
            | .error e => .error e
            | .ok o1 =>
              let out2 : Except RunErr Str :=
                if pc then printAllParts b64 cs selected else .ok []
              match out2 with
              | .error e => .error e
              | .ok o2 =>
                let o3 := if pr then input else []
                .ok (o1 ++ o2 ++ o3)
/- ### Soundness and completeness of the executable glob matcher -/

theorem tokMatch_sound : ∀ (ts : List Tok) (v : Str),
    tokMatch ts v = true → GMatches ts v := by
  intro ts v h
  induction ts, v using tokMatch.induct with
  | case1 => exact GMatches.nil
  | case2 => simp [tokMatch] at h
  | case3 => simp [tokMatch] at h
  | case4 c ts d v ih =>
      simp only [tokMatch, Bool.and_eq_true, beq_iff_eq] at h
      obtain ⟨rfl, h2⟩ := h
      exact GMatches.lit (ih h2)
  | case5 => simp [tokMatch] at h
  | case6 ts c v ih1 ih2 =>
      simp only [tokMatch, Bool.and_eq_true, Bool.or_eq_true, Bool.not_eq_true',
        beq_eq_false_iff_ne] at h
      obtain ⟨hc, h2 | h2⟩ := h
      · exact GMatches.star [c] (by simp) (by simpa using hc) (ih1 h2)
      · have := ih2 h2
        cases this with
        | star s hs hnl hm =>
            exact GMatches.star (c :: s) (by simp) (by simpa [hc] using hnl) hm

theorem tokMatch_star_of (ts : List Tok) (s v : Str) (hs : s ≠ [])
    (hnl : ∀ c ∈ s, c ≠ '\n') (hv : tokMatch ts v = true) :
    tokMatch (Tok.star :: ts) (s ++ v) = true := by
  induction s with
  | nil => exact absurd rfl hs
  | cons c s ih =>
      cases s with
      | nil =>
          simp only [List.cons_append, List.nil_append, tokMatch, Bool.and_eq_true,
            Bool.or_eq_true, Bool.not_eq_true', beq_eq_false_iff_ne]
          exact ⟨hnl c (by simp), Or.inl hv⟩
      | cons d s' =>
          simp only [List.cons_append, tokMatch, Bool.and_eq_true, Bool.or_eq_true,
            Bool.not_eq_true', beq_eq_false_iff_ne]
          refine ⟨hnl c (by simp), Or.inr ?_⟩
          have := ih (by simp) (fun x hx => hnl x (by simp [hx]))
          simpa only [List.cons_append, tokMatch, Bool.and_eq_true, Bool.or_eq_true,
            Bool.not_eq_true', beq_eq_false_iff_ne] using this

theorem tokMatch_complete {ts : List Tok} {v : Str}
    (h : GMatches ts v) : tokMatch ts v = true := by
  induction h with
  | nil => rfl
  | lit _ ih => simp [tokMatch, ih]
  | star s hs hnl _ ih => exact tokMatch_star_of _ s _ hs hnl ih

/-- A run of literal atoms matches exactly its own character sequence. -/
theorem GMatches_lits_iff (p : Str) (v : Str) :
    GMatches (p.map Tok.lit) v ↔ v = p := by
  induction p generalizing v with
  | nil =>
      constructor
      · intro h; cases h; rfl
      · rintro rfl; exact GMatches.nil
  | cons c p ih =>
      constructor
      · intro h
        cases h with
        | lit h' => simpa using (ih _).mp h'
      · rintro rfl
        exact GMatches.lit ((ih p).mpr rfl)

/-- Literal atoms at the front of the token list consume exactly the
corresponding prefix of the value. -/
theorem GMatches_lits_append (p : Str) (ts : List Tok) (v : Str) :
    GMatches (p.map Tok.lit ++ ts) (p ++ v) ↔ GMatches ts v := by
  induction p generalizing v with
  | nil => simp
  | cons c p ih =>
      constructor
      · intro h
        cases h with
        | lit h' => exact (ih v).mp h'
      · intro h
        exact GMatches.lit ((ih v).mpr h)

/-- A pure literal-atom sequence matches exactly its own string. -/
theorem tokMatch_lits (p v : Str) : tokMatch (p.map Tok.lit) v = decide (v = p) := by
  by_cases h : v = p
  · subst h
    have hc := tokMatch_complete ((GMatches_lits_iff v v).mpr rfl)
    simp [hc]
  · cases hm : tokMatch (p.map Tok.lit) v with
    | false => simp [h]
    | true => exact absurd ((GMatches_lits_iff p v).mp (tokMatch_sound _ _ hm)) h

/-- Inversion for a leading star atom. -/
theorem GMatches_star_inv {ts : List Tok} {w : Str} (h : GMatches (Tok.star :: ts) w) :
    ∃ s v, w = s ++ v ∧ s ≠ [] ∧ (∀ c ∈ s, c ≠ '\n') ∧ GMatches ts v := by
  cases h with
  | star s hs hnl hrest => exact ⟨s, _, rfl, hs, hnl, hrest⟩

/-- A star followed by the literals of `p` can never match `p` itself:
the star must consume at least one character, leaving too little for `p`. -/
theorem tokMatch_star_lits_self (p : Str) :
    tokMatch (Tok.star :: p.map Tok.lit) p = false := by
  cases hm : tokMatch (Tok.star :: p.map Tok.lit) p with
  | false => rfl
  | true =>
    exfalso
    obtain ⟨s, v, hw, hs, _, hrest⟩ := GMatches_star_inv (tokMatch_sound _ _ hm)
    have hv : v = p := (GMatches_lits_iff p v).mp hrest
    subst hv
    have hlen := congrArg List.length hw
    rw [List.length_append] at hlen
    have hpos : 0 < s.length := List.length_pos.mpr hs
    omega

theorem globToks_append (a b : Str) : globToks (a ++ b) = globToks a ++ globToks b := by
  simp [globToks]

theorem globToks_cons (c : Char) (p : Str) :
    globToks (c :: p) = (if c = '*' then Tok.star else Tok.lit c) :: globToks p := by
  simp [globToks]

/-- `globToks` over a star-free string is all literals. -/
theorem globToks_star_free {p : Str} (h : '*' ∉ p) : globToks p = p.map Tok.lit := by
  unfold globToks
  apply List.map_congr_left
  intro c hc
  have hne : c ≠ '*' := fun hce => h (hce ▸ hc)
  simp [hne]

/-- C1, general form over the token semantics: the glob `X*Y` matches
`X ++ s ++ Y` for every non-empty newline-free `s` and rejects `X ++ Y`. -/
theorem glob_one_star_spec {X Y : Str} (hX : '*' ∉ X) (hY : '*' ∉ Y)
    (s : Str) (hs : s ≠ []) (hnl : '\n' ∉ s) :
    tokMatch (globToks (X ++ '*' :: Y)) (X ++ s ++ Y) = true ∧
    tokMatch (globToks (X ++ '*' :: Y)) (X ++ Y) = false := by
  have htoks : globToks (X ++ '*' :: Y) = X.map Tok.lit ++ Tok.star :: Y.map Tok.lit := by
    rw [show X ++ '*' :: Y = X ++ (['*'] ++ Y) by simp, globToks_append, globToks_append,
      globToks_star_free hX, globToks_star_free hY]
    simp [globToks]
  constructor
  · rw [htoks]
    apply tokMatch_complete
    rw [List.append_assoc]
    apply (GMatches_lits_append X _ _).mpr
    exact GMatches.star s hs (fun c hc he => hnl (he ▸ hc))
      ((GMatches_lits_iff Y Y).mpr rfl)
  · rw [htoks]
    cases hm : tokMatch (X.map Tok.lit ++ Tok.star :: Y.map Tok.lit) (X ++ Y) with
    | false => rfl
    | true =>
      exfalso
      have h := (GMatches_lits_append X _ _).mp (tokMatch_sound _ _ hm)
      have hx := tokMatch_complete h
      rw [tokMatch_star_lits_self] at hx
      exact Bool.false_ne_true hx

/-- `testPattern` on a starred, non-`/…/` pattern reduces to the anchored
glob token matcher. -/
theorem testPattern_glob {p : Str} (hstar : '*' ∈ p)
    (hsl : ¬ (p.head? = some '/' ∧ p.getLast? = some '/'))
    (verb : Str → Option (Str → Bool)) (value : Str) :
    testPattern verb value p = PatRes.ok (tokMatch (globToks p) value) := by
  have hE : p.isEmpty = false := by
    cases p with
    | nil => simp at hstar
    | cons a l => rfl
  have hc : p.contains '*' = true := by
    simpa using hstar
  have hf : ¬ (¬ p.contains '*' ∧ p.head? ≠ some '/' ∧ p.getLast? ≠ some '/') := by
    rw [hc]; simp
  unfold testPattern regexpFromPattern
  simp only [hE, Bool.false_eq_true, if_false, hf, hsl]

/-- For a non-panicking pattern, the boolean `testPattern` returns is `testB`. -/
theorem testPattern_of_compiles {verb : Str → Option (Str → Bool)} {p : Str}
    (h : compilesB verb p = true) (v : Str) :
    testPattern verb v p = PatRes.ok (testB verb v p) := by
  unfold testB
  unfold compilesB at h
  by_cases hE : p.isEmpty
  · exfalso
    unfold regexpFromPattern at h
    simp [hE] at h
  · have hE' : p.isEmpty = false := by simpa using hE
    by_cases hf : (¬ p.contains '*' ∧ p.head? ≠ some '/' ∧ p.getLast? ≠ some '/')
    · obtain ⟨hc, hh, hl⟩ := hf
      have hm : '*' ∉ p := by simpa using hc
      simp [testPattern, hE', hm, hh, hl]
    · have hf' : ¬ ('*' ∉ p ∧ ¬ p.head? = some '/' ∧ ¬ p.getLast? = some '/') := by
        simpa using hf
      cases hr : regexpFromPattern verb p with
      | panicked => rw [hr] at h; simp at h
      | compileErr => rw [hr] at h; simp at h
      | compiled f =>
          simp only [testPattern, hE', Bool.false_eq_true, if_false, hr]
          rw [if_neg hf]

theorem flatMapEsc_star_free {p : Str} (h : '*' ∉ p) :
    (p.flatMap fun c => if c = '*' then ".+?".toList else quoteMetaChar c)
      = p.flatMap quoteMetaChar := by
  induction p with
  | nil => rfl
  | cons c rest ih =>
      have hne : c ≠ '*' := fun hce => h (hce ▸ List.mem_cons_self c rest)
      have hrest : '*' ∉ rest := fun hm => h (List.mem_cons_of_mem c hm)
      rw [List.flatMap_cons, List.flatMap_cons, ih hrest, if_neg hne]

/-- C1 — counterexample to the claim as stated: for the glob pattern `a*b`
(form `X*Y` with `X = "a"`, `Y = "b"`, not `/`-wrapped), testing against
`"a" + s + "b"` with the non-empty `s = "\n"` FAILS, because the wildcard is
compiled to `.+?` and Go's `.` does not match a newline; the claim asserts
success for every non-empty `s`. -/
theorem c1_counterexample :
    "\n".toList ≠ [] ∧
    testPattern (fun _ => none) ("a".toList ++ "\n".toList ++ "b".toList)
      ("a".toList ++ '*' :: "b".toList) = PatRes.ok false := by
  constructor
  · decide
  · rfl

/-- C1 (amended: `s` must additionally contain no newline character, since
`*` compiles to `.+?` and Go's `.` excludes `\n`): for every glob pattern
`X*Y` with star-free `X`, `Y`, not `/`-wrapped, compiling succeeds and
testing accepts `X ++ s ++ Y` for every non-empty newline-free `s`, rejects
`XY`, and the compiled source is `^` + escaped `X` + `.+?` + escaped `Y` +
`$`. -/
theorem c1_glob_star_pattern (verb : Str → Option (Str → Bool)) {X Y : Str}
    (hX : '*' ∉ X) (hY : '*' ∉ Y)
    (hsl : ¬ ((X ++ '*' :: Y).head? = some '/' ∧ (X ++ '*' :: Y).getLast? = some '/'))
    (s : Str) (hs : s ≠ []) (hnl : '\n' ∉ s) :
    testPattern verb (X ++ s ++ Y) (X ++ '*' :: Y) = PatRes.ok true ∧
    testPattern verb (X ++ Y) (X ++ '*' :: Y) = PatRes.ok false ∧
    globRegexStr (X ++ '*' :: Y) =
      '^' :: (X.flatMap quoteMetaChar ++ ".+?".toList ++ Y.flatMap quoteMetaChar) ++ ['$'] := by
  have hstar : '*' ∈ X ++ '*' :: Y := by simp
  obtain ⟨h1, h2⟩ := glob_one_star_spec hX hY s hs hnl
  refine ⟨?_, ?_, ?_⟩
  · rw [testPattern_glob hstar hsl verb _, h1]
  · rw [testPattern_glob hstar hsl verb _, h2]
  · unfold globRegexStr
    rw [List.flatMap_append, List.flatMap_cons, flatMapEsc_star_free hX,
      flatMapEsc_star_free hY, if_pos rfl]
    simp

/-- Witness for C1 at `X = "a"`, `Y = "b.c"`, `s = "xx"`. -/
theorem c1_glob_star_pattern_witness :
    testPattern (fun _ => none) ("a".toList ++ "xx".toList ++ "b.c".toList)
      ("a".toList ++ '*' :: "b.c".toList) = PatRes.ok true ∧
    testPattern (fun _ => none) ("a".toList ++ "b.c".toList)
      ("a".toList ++ '*' :: "b.c".toList) = PatRes.ok false := by
  have h := c1_glob_star_pattern (fun _ => none)
    (X := "a".toList) (Y := "b.c".toList)
    (by decide) (by decide) (by decide)
    "xx".toList (by decide) (by decide)
  exact ⟨h.1, h.2.1⟩

/-- C7 — counterexample to the claim as stated: the empty pattern contains no
`*` and is not enclosed in `/…/`, and the empty value is byte-equal to it,
yet `testPattern` does not return `true` — it panics (`pattern[0]` is out of
range), so the stated equivalence fails at `value = pattern = ""`. -/
theorem c7_counterexample :
    ("".toList.contains '*' = false) ∧
    testPattern (fun _ => none) "".toList "".toList = PatRes.panicked := by
  constructor
  · rfl
  · rfl

/-- C7 (amended: the pattern must additionally be non-empty and must not
both start and end with `/` — `testPattern` panics on the empty pattern, and
a pattern that both starts and ends with `/` is taken as the `/…/` form even
when it is the single character `/`): for every such pattern with no `*`,
testing any value is exact string equality, metacharacters included. -/
theorem c7_literal_exact_equality (verb : Str → Option (Str → Bool))
    (value pattern : Str) (hne : pattern ≠ []) (hstar : '*' ∉ pattern)
    (hsl : ¬ (pattern.head? = some '/' ∧ pattern.getLast? = some '/')) :
    testPattern verb value pattern = PatRes.ok (decide (value = pattern)) := by
  have hE : pattern.isEmpty = false := by
    cases pattern with
    | nil => exact absurd rfl hne
    | cons a l => rfl
  have hc : pattern.contains '*' = false := by simpa using hstar
  by_cases hf : (pattern.head? ≠ some '/' ∧ pattern.getLast? ≠ some '/')
  · -- fast path: plain string equality, no regex at all
    simp [testPattern, hE, hstar, hf.1, hf.2]
  · -- one endpoint is `/` (not both): the glob branch compiles the pattern
    -- all-literal and anchored, which again decides exact equality
    have hguard : ¬ (¬ pattern.contains '*' = true ∧ pattern.head? ≠ some '/' ∧
        pattern.getLast? ≠ some '/') := by
      intro hx
      exact hf ⟨hx.2.1, hx.2.2⟩
    unfold testPattern regexpFromPattern
    simp only [hE, Bool.false_eq_true, if_false]
    rw [if_neg hguard, if_neg hsl]
    rw [globToks_star_free hstar]
    exact congrArg PatRes.ok (tokMatch_lits pattern value)

/-- Witness for C7: a pattern containing the regex metacharacter `.` matches
exactly itself and not a string the regex `a.c` would accept. -/
theorem c7_literal_exact_equality_witness :
    testPattern (fun _ => none) "a.c".toList "a.c".toList = PatRes.ok true ∧
    testPattern (fun _ => none) "axc".toList "a.c".toList = PatRes.ok false := by
  constructor
  · have h := c7_literal_exact_equality (fun _ => none) "a.c".toList "a.c".toList
      (by decide) (by decide) (by decide)
    simpa using h
  · have h := c7_literal_exact_equality (fun _ => none) "axc".toList "a.c".toList
      (by decide) (by decide) (by decide)
    simpa using h

/-- C8: evaluating the code at the failing input — `testPattern` on the
empty pattern does not return an `InvalidPattern`-style error; it PANICS:
`strings.IndexByte("", '*')` is `-1`, so the fast-path guard evaluates
`pattern[0]`, which is out of range for the empty string.  (The spec's
required behaviour — a reportable hard error — is not what the code does.) -/
theorem c8_empty_pattern_panics (verb : Str → Option (Str → Bool)) (value : Str) :
    testPattern verb value [] = PatRes.panicked := rfl

/-- C10 — counterexample to the claim as stated: for the one-character
pattern `"/"` both endpoint tests hit the same character, `regexpFromPattern`
takes the slice `pattern[1:0]`, whose bounds are out of range in Go, and
`testPattern` panics instead of returning a value or error. -/
theorem c10_counterexample :
    testPattern (fun _ => none) "x".toList "/".toList = PatRes.panicked := rfl

/-- C10 (amended: totality holds for every non-empty pattern EXCEPT `"/"`;
on `"/"` the interior slice `pattern[1:len(pattern)-1]` has bounds `1` and
`0`, which is out of range, so `testPattern` panics): on every other
non-empty pattern `testPattern` terminates with a value or error. -/
theorem c10_total_except_lone_slash (verb : Str → Option (Str → Bool))
    (value p : Str) (h1 : p ≠ []) (h2 : p ≠ ['/']) :
    testPattern verb value p ≠ PatRes.panicked := by
  have hE : p.isEmpty = false := by
    cases p with
    | nil => exact absurd rfl h1
    | cons a l => rfl
  have hrx : regexpFromPattern verb p ≠ RxRes.panicked := by
    unfold regexpFromPattern
    simp only [hE, Bool.false_eq_true, if_false]
    by_cases hsl : (p.head? = some '/' ∧ p.getLast? = some '/')
    · rw [if_pos hsl]
      have hlen : p.length ≠ 1 := by
        intro hl
        obtain ⟨c, hc⟩ := List.length_eq_one.mp hl
        subst hc
        have : c = '/' := by simpa using hsl.1
        exact h2 (by simp [this])
      rw [if_neg hlen]
      cases verb ((p.drop 1).dropLast) <;> simp
    · rw [if_neg hsl]
      simp
  unfold testPattern
  simp only [hE, Bool.false_eq_true, if_false]
  by_cases hf : (¬ p.contains '*' = true ∧ p.head? ≠ some '/' ∧ p.getLast? ≠ some '/')
  · rw [if_pos hf]
    simp
  · rw [if_neg hf]
    cases hr : regexpFromPattern verb p with
    | panicked => exact absurd hr hrx
    | compileErr => simp
    | compiled f => simp

/-- Witness for C10 at the non-empty pattern `"a"`. -/
theorem c10_total_except_lone_slash_witness :
    testPattern (fun _ => none) "x".toList "a".toList ≠ PatRes.panicked :=
  c10_total_except_lone_slash (fun _ => none) "x".toList "a".toList
    (by decide) (by decide)

/-- `newMessagePartFromHeader` fills the non-body fields and leaves `body`,
`rPreset` empty and the header as given. -/
theorem newMessagePart_fields {h : Header} {info : PInfo}
    (he : newMessagePartFromHeader h = .ok info) :
    info.body = none ∧ info.rPreset = none ∧ info.header = h := by
  unfold newMessagePartFromHeader at he
  cases hp : parseMediaType (Header.get h ctKey) with
  | none =>
      simp only [hp] at he
      cases he
  | some mt =>
      simp only [hp, Except.ok.injEq] at he
      subst he
      exact ⟨rfl, rfl, rfl⟩

/-- C2 — counterexample to the claim as stated: a header with no
`Content-Type` at all makes `newMessagePartFromHeader` (and hence
`buildPartTree`) fail with the Content-Type parse error — `Get` returns the
empty string and `mime.ParseMediaType("")` is "mime: no media type" — rather
than defaulting the part to `text/plain`. -/
theorem c2_counterexample :
    Header.get [] ctKey = [] ∧
    newMessagePartFromHeader [] = Except.error (BErr.contentType []) := ⟨rfl, rfl⟩

/-- C2 (amended: an absent `Content-Type` is not defaulted to `text/plain`;
its empty value fails media-type parsing, so building errors.  Building
errors on Content-Type iff parsing the header's — possibly empty — value
fails, which is exactly "absent or malformed"): the error equivalence, that
the empty value is malformed while `text/plain` parses, and the propagation
through `buildPartTree`. -/
theorem c2_content_type_error_iff :
    (∀ h : Header, (∃ e, newMessagePartFromHeader h = .error e) ↔
        parseMediaType (Header.get h ctKey) = none) ∧
    parseMediaType [] = none ∧
    parseMediaType "text/".toList = none ∧
    (∃ mt, parseMediaType "text/plain".toList = some mt ∧
        mt.mediatype = "text/plain".toList) ∧
    (∀ (qp : Str → Except Unit Str) (h : Header) (raw : Str) (se : Bool)
        (subs : List (Header × BodyT)), parseMediaType (Header.get h ctKey) = none →
        buildPartTree qp h (BodyT.mk raw se subs) =
          .error (BErr.contentType (Header.get h ctKey))) := by
  refine ⟨?_, rfl, rfl, ⟨⟨"text/plain".toList, []⟩, rfl, rfl⟩, ?_⟩
  · intro h
    constructor
    · rintro ⟨e, he⟩
      unfold newMessagePartFromHeader at he
      cases hp : parseMediaType (Header.get h ctKey) with
      | none => rfl
      | some mt => simp only [hp] at he; cases he
    · intro hp
      refine ⟨BErr.contentType (Header.get h ctKey), ?_⟩
      unfold newMessagePartFromHeader
      simp only [hp]
  · intro qp h raw se subs hp
    have hn : newMessagePartFromHeader h = .error (BErr.contentType (Header.get h ctKey)) := by
      unfold newMessagePartFromHeader
      simp only [hp]
    simp [buildPartTree, hn]

/-- Witness for C2 at a concrete Content-Type-less header handed to
`buildPartTree`. -/
theorem c2_content_type_error_iff_witness :
    buildPartTree (fun s => .ok s) [("X".toList, "y".toList)] (BodyT.mk "b".toList false []) =
      .error (BErr.contentType []) :=
  c2_content_type_error_iff.2.2.2.2 (fun s => .ok s) [("X".toList, "y".toList)]
    "b".toList false [] rfl

/-- The leaf branch of `buildPartTree`, isolated. -/
theorem buildPartTree_leaf_eq (qp : Str → Except Unit Str) (h : Header) (raw : Str)
    (se : Bool) (subs : List (Header × BodyT)) (info : PInfo)
    (hinfo : newMessagePartFromHeader h = .ok info)
    (hguard : ¬ (hasMultipartMedia info.mediaType = true ∧
      Params.get info.mediaTypeParams boundaryKey ≠ [])) :
    buildPartTree qp h (BodyT.mk raw se subs) =
      (if eqFold (Header.get h cteKey) "quoted-printable".toList then
         match qp raw with
         | .ok dec => .ok (MPart.mk { info with body := some dec } [])
         | .error _ => .error BErr.bodyRead
       else .ok (MPart.mk { info with body := some raw } [])) := by
  simp [buildPartTree, hinfo, hguard]

/-- C9: every part constructed by `buildPartTree` (the root and, recursively,
every subpart) satisfies the invariant that `body` and a non-empty
`subparts` are never both populated — i.e. exactly one of
{children non-empty, rawBody present} holds, except for the permitted
degenerate childless/bodyless case (a declared multipart whose reader
yielded no parts). -/
theorem c9_build_part_invariant (qp : Str → Except Unit Str) :
    ∀ (h : Header) (t : BodyT) (p : MPart),
      buildPartTree qp h t = .ok p → invM p = true := by
  refine buildPartTree.induct qp
    (fun h t => ∀ p, buildPartTree qp h t = .ok p → invM p = true)
    (fun l => ∀ ps, buildSubs qp l = .ok ps → invL ps = true)
    ?_ ?_ ?_ ?_ ?_ ?_ ?_ ?_ ?_ ?_ ?_
  · intro h raw se subs e he p hp
    simp [buildPartTree, he] at hp
  · intro h raw subs info hinfo hguard p hp
    simp [buildPartTree, hinfo, hguard] at hp
  · intro h raw se subs info hinfo hguard hse e hsubs _ p hp
    have hse' : se = false := by simpa using hse
    subst hse'
    simp [buildPartTree, hinfo, hguard, hsubs] at hp
  · intro h raw se subs info hinfo hguard hse kids hkids ih2 p hp
    have hse' : se = false := by simpa using hse
    subst hse'
    simp only [buildPartTree, hinfo, if_pos hguard, if_neg (by simp : ¬ false = true),
      hkids, Except.ok.injEq] at hp
    subst hp
    simp [invM, (newMessagePart_fields hinfo).1, ih2 kids hkids]
  · intro h raw se subs info hinfo hguard hqp dec hdec p hp
    rw [buildPartTree_leaf_eq qp h raw se subs info hinfo hguard, if_pos hqp, hdec] at hp
    injection hp with hp
    subst hp
    simp [invM, invL]
  · intro h raw se subs info hinfo hguard hqp a ha p hp
    rw [buildPartTree_leaf_eq qp h raw se subs info hinfo hguard, if_pos hqp, ha] at hp
    cases hp
  · intro h raw se subs info hinfo hguard hqp p hp
    rw [buildPartTree_leaf_eq qp h raw se subs info hinfo hguard, if_neg hqp] at hp
    injection hp with hp
    subst hp
    simp [invM, invL]
  · intro ps hps
    simp only [buildSubs, Except.ok.injEq] at hps
    subst hps
    simp [invL]
  · intro h t rest e he _ ps hps
    simp [buildSubs, he] at hps
  · intro h t rest p hp e he _ _ ps hps
    simp [buildSubs, hp, he] at hps
  · intro h t rest p hp kids hkids ih1 ih2 ps hps
    simp only [buildSubs, hp, hkids, Except.ok.injEq] at hps
    subst hps
    simp [invL, ih1 p hp, ih2 kids hkids]

/-- Witness for C9 at a concrete two-level multipart message. -/
theorem c9_build_part_invariant_witness :
    ∃ p, buildPartTree (fun s => .ok s)
        [(ctKey, "multipart/mixed; boundary=b".toList)]
        (BodyT.mk [] false
          [([(ctKey, "text/plain".toList)], BodyT.mk "hi".toList false [])])
      = .ok p ∧ invM p = true := by
  obtain ⟨p, hp⟩ : ∃ p, buildPartTree (fun s => .ok s)
      [(ctKey, "multipart/mixed; boundary=b".toList)]
      (BodyT.mk [] false
        [([(ctKey, "text/plain".toList)], BodyT.mk "hi".toList false [])]) = .ok p :=
    ⟨_, rfl⟩
  exact ⟨p, hp, c9_build_part_invariant (fun s => .ok s) _ _ p hp⟩

/-- C3: with a successfully compiled media-type pattern, `selectParts`
returns exactly the leaf parts (parts with a body — multipart/body-less
nodes are never returned) whose attachment flag equals the requested one and
whose media type matches the pattern, in pre-order depth-first document
order. -/
theorem c3_selectParts_filters_leaves (verb : Str → Option (Str → Bool))
    (spec : Str) (watt : Bool) (hc : compilesB verb spec = true) :
    ∀ root : MPart, selectParts verb spec watt root =
      .ok ((leavesM root).filter fun m =>
        (m.isAttachment == watt) && testB verb m.mediaType spec) := by
  refine selectParts.induct verb spec watt
    (fun root => selectParts verb spec watt root =
      .ok ((leavesM root).filter fun m =>
        (m.isAttachment == watt) && testB verb m.mediaType spec))
    (fun l => selectList verb spec watt l =
      .ok ((leavesL l).filter fun m =>
        (m.isAttachment == watt) && testB verb m.mediaType spec))
    ?_ ?_ ?_ ?_ ?_ ?_ ?_ ?_ ?_ ?_
  · intro i subs hbody ih
    simp [selectParts, leavesM, hbody, ih]
  · intro i subs hbody hatt
    have hatt' : ((MPart.mk i subs).isAttachment == watt) = false := by
      simpa using hatt
    simp only [selectParts, leavesM, if_neg hbody, if_pos hatt]
    simp [List.filter, hatt']
  · intro i subs hbody hatt htest
    have htb : testB verb i.mediaType spec = true := by
      unfold testB; rw [htest]
    have hatt' : ((MPart.mk i subs).isAttachment == watt) = true := by
      simpa using not_ne_iff.mp hatt
    simp only [selectParts, leavesM, if_neg hbody, if_neg hatt, htest]
    simp [List.filter, hatt', htb, MPart.mediaType, MPart.info]
  · intro i subs hbody hatt htest
    have htb : testB verb i.mediaType spec = false := by
      unfold testB; rw [htest]
    simp only [selectParts, leavesM, if_neg hbody, if_neg hatt, htest]
    simp [List.filter, htb, MPart.mediaType, MPart.info]
  · intro i subs hbody hatt htest
    exfalso
    have hok := testPattern_of_compiles hc i.mediaType
    rw [htest] at hok
    cases hok
  · intro i subs hbody hatt htest
    exfalso
    have hok := testPattern_of_compiles hc i.mediaType
    rw [htest] at hok
    cases hok
  · simp [selectList, leavesL]
  · intro p rest e he ih
    rw [ih] at he
    cases he
  · intro p rest l2 hp e he ih1 ih2
    rw [ih2] at he
    cases he
  · intro p rest l2 hp l2' hl2 ih1 ih2
    rw [ih1] at hp
    rw [ih2] at hl2
    injection hp with hp
    injection hl2 with hl2
    simp [selectList, ih1, ih2, leavesL, List.filter_append, hp, hl2]

/-- Witness for C3: a multipart tree with a plain leaf, an html leaf and a
plain attachment; selecting non-attachments by `text/plain` returns exactly
the first leaf. -/
theorem c3_selectParts_filters_leaves_witness :
    selectParts (fun _ => none) "text/plain".toList false
      (MPart.mk ⟨[], "multipart/mixed".toList, [], none, none, [], []⟩
        [MPart.mk ⟨[], "text/plain".toList, [], none, some "a".toList, [], []⟩ [],
         MPart.mk ⟨[], "text/html".toList, [], none, some "b".toList, [], []⟩ [],
         MPart.mk ⟨[], "text/plain".toList, [], none, some "c".toList,
           "attachment".toList, []⟩ []])
      = .ok [MPart.mk ⟨[], "text/plain".toList, [], none, some "a".toList, [], []⟩ []] := by
  rw [c3_selectParts_filters_leaves (fun _ => none) "text/plain".toList false (by rfl)]
  rfl

/-- C4: for a leaf entity whose `Content-Transfer-Encoding` equals
`quoted-printable` case-insensitively, the quoted-printable decoder is
applied while copying the body during tree construction, so the stored
`body` already holds the decoded bytes; any other transfer encoding leaves
the stored `body` as the raw bytes, and base64 decoding and charset decoding
are applied only by `Read` (`readAll`), i.e. lazily at read time. -/
theorem c4_qp_eager_transfer_lazy (qp b64 : Str → Except Unit Str)
    (cs : Str → Option (Str → Except Unit Str))
    (h : Header) (raw : Str) (se : Bool) (subs : List (Header × BodyT)) (info : PInfo)
    (hinfo : newMessagePartFromHeader h = .ok info)
    (hleaf : ¬ (hasMultipartMedia info.mediaType = true ∧
      Params.get info.mediaTypeParams boundaryKey ≠ [])) :
    (eqFold (Header.get h cteKey) "quoted-printable".toList = true →
      ∀ dec, qp raw = .ok dec →
        buildPartTree qp h (BodyT.mk raw se subs) =
          .ok (MPart.mk { info with body := some dec } [])) ∧
    (eqFold (Header.get h cteKey) "quoted-printable".toList = false →
      buildPartTree qp h (BodyT.mk raw se subs) =
        .ok (MPart.mk { info with body := some raw } [])) ∧
    (eqFold (Header.get h cteKey) "base64".toList = true →
      Params.get info.mediaTypeParams charsetKey = [] →
      readAll b64 cs (MPart.mk { info with body := some raw } []) =
        (match b64 raw with
         | .ok d => .ok d
         | .error _ => .error RdErr.readFail)) ∧
    (∀ ch, Params.get info.mediaTypeParams charsetKey = ch → ch ≠ [] →
      eqFold (Header.get h cteKey) "base64".toList = false →
      readAll b64 cs (MPart.mk { info with body := some raw } []) =
        (match cs ch with
         | none => .error RdErr.charsetBuild
         | some d =>
             match d raw with
             | .ok d2 => .ok d2
             | .error _ => .error RdErr.readFail)) := by
  obtain ⟨hbody, hrp, hhdr⟩ := newMessagePart_fields hinfo
  refine ⟨?_, ?_, ?_, ?_⟩
  · intro hqp dec hdec
    rw [buildPartTree_leaf_eq qp h raw se subs info hinfo hleaf, if_pos hqp, hdec]
  · intro hqp
    rw [buildPartTree_leaf_eq qp h raw se subs info hinfo hleaf,
      if_neg (by rw [hqp]; simp)]
  · intro hb64 hcs
    unfold readAll
    simp only [MPart.info, hrp, hhdr, hcs, hb64]
    cases b64 raw <;> simp
  · intro ch hch hchne hb64
    unfold readAll
    simp only [MPart.info, hrp, hhdr, hch]
    rw [if_neg (by rw [hb64]; simp)]
    simp only [if_pos hchne]

/-- Witness for C4: a `Quoted-Printable` (mixed-case) leaf is stored already
decoded by the build; a `base64` leaf is stored raw and `readAll` passes the
raw bytes through the base64 decoder. -/
theorem c4_qp_eager_transfer_lazy_witness :
    buildPartTree (fun _ => .ok "D".toList)
        [(ctKey, "text/plain".toList), (cteKey, "Quoted-Printable".toList)]
        (BodyT.mk "=44".toList false []) =
      .ok (MPart.mk ⟨[(ctKey, "text/plain".toList), (cteKey, "Quoted-Printable".toList)],
        "text/plain".toList, [], none, some "D".toList, [], []⟩ []) ∧
    readAll (fun _ => .ok "X".toList) (fun _ => none)
      (MPart.mk ⟨[(ctKey, "text/plain".toList), (cteKey, "base64".toList)],
        "text/plain".toList, [], none, some "WA==".toList, [], []⟩ []) = .ok "X".toList := by
  constructor
  · exact (c4_qp_eager_transfer_lazy (fun _ => .ok "D".toList) (fun s => .ok s)
      (fun _ => none)
      [(ctKey, "text/plain".toList), (cteKey, "Quoted-Printable".toList)]
      "=44".toList false []
      ⟨[(ctKey, "text/plain".toList), (cteKey, "Quoted-Printable".toList)],
        "text/plain".toList, [], none, none, [], []⟩
      rfl (by decide)).1 (by decide) "D".toList rfl
  · exact (c4_qp_eager_transfer_lazy (fun s => .ok s) (fun _ => .ok "X".toList)
      (fun _ => none)
      [(ctKey, "text/plain".toList), (cteKey, "base64".toList)]
      "WA==".toList false []
      ⟨[(ctKey, "text/plain".toList), (cteKey, "base64".toList)],
        "text/plain".toList, [], none, none, [], []⟩
      rfl (by decide)).2.2.1 (by decide) rfl

/-- C5: the synthetic whole-message part (built from the top header with its
`r` preset to the captured input buffer) reads back exactly the captured
input — no transfer decoding and no charset decoding is applied, whatever
the top-level `Content-Transfer-Encoding` or `charset` says; and a run with
no selection and no explicit print mode outputs exactly the unparsed input. -/
theorem c5_whole_message_raw (verb : Str → Option (Str → Bool))
    (qp b64 : Str → Except Unit Str) (cs : Str → Option (Str → Except Unit Str))
    (dh : Str → Except Unit Str) (h : Header) (input : Str) (t : BodyT) (info : PInfo)
    (hinfo : newMessagePartFromHeader h = .ok info)
    (hroot : ∃ root, buildPartTree qp h t = .ok root) :
    readAll b64 cs (MPart.mk { info with rPreset := some input } []) = .ok input ∧
    runOutput verb qp b64 cs dh ⟨[], [], false, [], false⟩ h input t = .ok input := by
  obtain ⟨root, hroot⟩ := hroot
  constructor
  · rfl
  · unfold runOutput
    simp [hinfo, hroot]

/-- Witness for C5: the top-level header declares `base64` and the base64
decoder oracle always fails, yet the whole-message part reads back the
captured input unchanged and the default run emits it verbatim. -/
theorem c5_whole_message_raw_witness :
    readAll (fun _ => .error ()) (fun _ => none)
      (MPart.mk ⟨[(ctKey, "text/plain".toList), (cteKey, "base64".toList)],
        "text/plain".toList, [], some "RAW INPUT".toList, none, [], []⟩ [])
      = .ok "RAW INPUT".toList ∧
    runOutput (fun _ => none) (fun s => .ok s) (fun _ => .error ()) (fun _ => none)
      (fun s => .ok s) ⟨[], [], false, [], false⟩
      [(ctKey, "text/plain".toList), (cteKey, "base64".toList)]
      "RAW INPUT".toList (BodyT.mk "body".toList false []) = .ok "RAW INPUT".toList :=
  c5_whole_message_raw (fun _ => none) (fun s => .ok s) (fun _ => .error ())
    (fun _ => none) (fun s => .ok s)
    [(ctKey, "text/plain".toList), (cteKey, "base64".toList)] "RAW INPUT".toList
    (BodyT.mk "body".toList false [])
    ⟨[(ctKey, "text/plain".toList), (cteKey, "base64".toList)],
      "text/plain".toList, [], none, none, [], []⟩
    rfl ⟨_, rfl⟩

/-- The `checkMatch` value loop over bare addresses is a logical OR. -/
theorem checkValues_any (verb : Str → Option (Str → Bool)) (dh : Str → Except Unit Str)
    (pat : Str) :
    ∀ (addrs : List GoAddress) (df : GoAddress → Str) (mf : GoAddress → Bool),
      (∀ a ∈ addrs, dh a.address = .ok (df a)) →
      (∀ a ∈ addrs, testPattern verb (df a) pat = PatRes.ok (mf a)) →
      checkValues verb dh pat (addrs.map GoAddress.address) = .ok (addrs.any mf) := by
  intro addrs
  induction addrs with
  | nil => intro df mf _ _; rfl
  | cons a rest ih =>
      intro df mf hdf hmf
      have hda : dh a.address = .ok (df a) := hdf a (List.mem_cons_self a rest)
      have hma : testPattern verb (df a) pat = PatRes.ok (mf a) :=
        hmf a (List.mem_cons_self a rest)
      have hrest := ih df mf (fun x hx => hdf x (List.mem_cons_of_mem a hx))
        (fun x hx => hmf x (List.mem_cons_of_mem a hx))
      simp only [List.map_cons, checkValues, hda, hma]
      cases hb : mf a with
      | false => simp [hb, hrest]
      | true => simp [hb]

/-- C6: in address mode, `checkMatch` parses the header into addresses,
compares each one by its bare address form (the display name never enters
the comparison), and succeeds iff at least one address matches — a logical
OR across a multi-address header. -/
theorem c6_address_match_any (verb : Str → Option (Str → Bool))
    (dh : Str → Except Unit Str) (pl : Str → Except Unit (List GoAddress))
    (h : Header) (inS hdr pat : Str)
    (hsplit : splitHeaderPattern inS = some (hdr, pat))
    (addrs : List GoAddress) (hpl : pl (Header.get h hdr) = .ok addrs)
    (df : GoAddress → Str) (mf : GoAddress → Bool)
    (hdf : ∀ a ∈ addrs, dh a.address = .ok (df a))
    (hmf : ∀ a ∈ addrs, testPattern verb (df a) pat = PatRes.ok (mf a)) :
    checkMatch verb dh pl h inS true = .ok (addrs.any mf) := by
  unfold checkMatch
  rw [hsplit]
  simp only [if_pos rfl, hpl]
  exact checkValues_any verb dh pat addrs df mf hdf hmf

/-- Witness for C6: `From: "A" <x@example.com>, "B" <y@other.org>` matched
against `*@other.org`; the second address matches, so the whole check does. -/
theorem c6_address_match_any_witness :
    checkMatch (fun _ => none) (fun s => .ok s)
      (fun _ => .ok [⟨"A".toList, "x@example.com".toList⟩,
                     ⟨"B".toList, "y@other.org".toList⟩])
      [("From".toList, "ignored".toList)] "From:*@other.org".toList true
      = .ok true := by
  have h := c6_address_match_any (fun _ => none) (fun s => .ok s)
    (fun _ => .ok [⟨"A".toList, "x@example.com".toList⟩,
                   ⟨"B".toList, "y@other.org".toList⟩])
    [("From".toList, "ignored".toList)] "From:*@other.org".toList
    "From".toList "*@other.org".toList (by decide)
    [⟨"A".toList, "x@example.com".toList⟩, ⟨"B".toList, "y@other.org".toList⟩] rfl
    (fun a => a.address)
    (fun a => testB (fun _ => none) a.address "*@other.org".toList)
    (by intro a _; rfl) (by decide)
  simpa using h
